import Mathlib

/-!
Verification development for the ResourceCalculator build tool (`build.py`).

The file embeds the three core subsystems of the build script as executable
Lean definitions and proves the specified properties about them:

* the sprite packer `create_packed_image` (image-coordinate layout),
* the recipe validator `lint_recipe` / `ensure_valid_requirements`,
* the staleness checker `get_oldest_modified_time` / `get_newest_modified_time`
  and the skip decision in `create_calculator_page`.

Modelling conventions: Python ints are `Nat`/`Int`; Python exceptions
(`IndexError`, `KeyError`, `ValueError`, `TypeError`) are `Except.error`;
`math.ceil(math.sqrt(h*n/w))` is modelled with exact rational arithmetic
(`ceilSqrt (ceilDivNat (h*n) w)`), which agrees with the float computation on
all realistic image counts and dimensions; image dimensions are assumed
positive (a zero-dimension bitmap cannot be produced by PIL from a real file).
-/

/-- Embeds `os.path.splitext(file)[0]` (build.py line 58) for a bare file
name: the part before the last dot, unless every character before that dot is
itself a dot, in which case the name is returned unchanged. -/
def splitextStem (p : String) : String :=
  let cs := p.data
  let j := cs.length - 1 - cs.reverse.findIdx (fun c => c == '.')
  if (cs.take j).any (fun c => c != '.') then String.mk (cs.take j) else p

/-- Embeds `re.sub(r'[^a-z]', '', recipe.lower())` (build.py line 272): the
item name lowercased with every character outside `a`-`z` removed (ASCII; the
claims only involve ASCII names). -/
def simpleName (s : String) : String :=
  String.mk ((s.data.map Char.toLower).filter (fun c => decide ('a' ≤ c) && decide (c ≤ 'z')))

/-- Lexicographic comparison of character lists by code point, the order
Python uses to compare strings (`images.sort(key=lambda x: x[0])`). -/
def charListLe : List Char → List Char → Bool
  | [], _ => true
  | _ :: _, [] => false
  | a :: as, b :: bs => if a < b then true else if b < a then false else charListLe as bs

/-- Python's `<=` on strings: code-point lexicographic order. -/
def strLe (a b : String) : Bool := charListLe a.data b.data

/-- An input image file for the packer: its file name (with extension) and
the dimensions `image.size` reports for it. Bitmap contents are irrelevant
to the coordinate map. -/
structure ImgFile where
  name : String
  width : Nat
  height : Nat
deriving DecidableEq, Repr

deriving instance DecidableEq for Except

/-- The sort order of `images.sort(key=lambda x: x[0])` (build.py line 71):
compare (name, image) pairs by name. -/
def packLe (a b : String × ImgFile) : Prop := strLe a.1 b.1 = true

instance : DecidableRel packLe := fun a b => Bool.decEq (strLe a.1 b.1) true

/-- Ceiling division on naturals, modelling `math.ceil(a / b)` for `b > 0`. -/
def ceilDivNat (a b : Nat) : Nat := (a + b - 1) / b

/-- Linear search for the least `c` (starting from the given `c`, with enough
fuel) such that `m ≤ c * c`. -/
def ceilSqrtAux (m : Nat) : Nat → Nat → Nat
  | 0, c => c
  | fuel + 1, c => if m ≤ c * c then c else ceilSqrtAux m fuel (c + 1)

/-- Ceiling of the square root, modelling `math.ceil(math.sqrt (m : ℚ))` for
a natural `m`: the least `c` with `m ≤ c * c`. -/
def ceilSqrt (m : Nat) : Nat := ceilSqrtAux m m 0

/-- Embeds build.py line 76,
`columns = math.ceil(math.sqrt(standard_height * len(images) / standard_width))`.
Since `c ≥ sqrt q ↔ c*c ≥ q ↔ c*c ≥ ceil q` for integer `c*c`, the exact
value is `ceilSqrt ⌈h*n/w⌉`. -/
def columns (w h n : Nat) : Nat := ceilSqrt (ceilDivNat (h * n) w)

/-- Embeds build.py line 77, `result_width = standard_width*columns`. -/
def sheetWidth (w h n : Nat) : Nat := w * columns w h n

/-- Embeds build.py line 78,
`result_height = standard_height*math.ceil((len(images)/columns))`. -/
def sheetHeight (w h n : Nat) : Nat := h * ceilDivNat n (columns w h n)

/-- Embeds the placement loop of build.py lines 82-86: the image at
(enumeration) index `i` is placed at
`x = (i % columns) * standard_height`, `y = (i // columns) * standard_width`
(note the axis swap present in the source). `i0` is the starting index. -/
def placeImages (c sh sw : Nat) : Nat → List (String × ImgFile) → List (String × Nat × Nat)
  | _, [] => []
  | i, (nm, _) :: rest => (nm, (i % c) * sh, (i / c) * sw) :: placeImages c sh sw (i + 1) rest

/-- Embeds `create_packed_image` (build.py lines 43-100) restricted to its
coordinate-map computation: reference dimensions come from the first listed
file, names are the extension-stripped stems, the (name, image) pairs are
stably sorted by name (`images.sort(key=lambda x: x[0])`, modelled by
insertion sort, which is also stable), and each sorted index is mapped to
its pixel coordinate. The Python function returns `(standard_width,
standard_height, image_coordinates)`; on an empty directory `standard_width`
stays `None` and `standard_height * len(images)` raises `TypeError`. -/
def createPackedImage (files : List ImgFile) :
    Except String (Nat × Nat × List (String × Nat × Nat)) :=
  match files with
  | [] => Except.error "TypeError: unsupported operand type for NoneType"
  | f0 :: _ =>
    Except.ok (f0.width, f0.height,
      placeImages (columns f0.width f0.height files.length) f0.height f0.width 0
        (List.insertionSort packLe (files.map (fun f => (splitextStem f.name, f)))))

/-- Embeds the icon lookup of build.py line 274,
`if simple_name in resource_image_coordinates`: the normalized item name is
looked up among the keys of the coordinate map. -/
def itemHasIcon (coords : List (String × Nat × Nat)) (itemName : String) : Bool :=
  (coords.map Prod.fst).contains (simpleName itemName)

/-- A YAML value appearing in a recipe record: the integer `output`, the
string `recipe_type`, or the `requirements` mapping from item name to signed
integer quantity (`extra_data` payloads are opaque and never inspected by the
validator, so any of these shapes may stand for them). -/
inductive Value where
  | num (n : Int)
  | str (s : String)
  | reqs (entries : List (String × Int))
deriving DecidableEq, Repr

/-- A recipe as loaded by `ordered_load`: an insertion-ordered mapping,
modelled as the ordered list of its (key, value) pairs. -/
abbrev Recipe := List (String × Value)

/-- The diagnostics `lint_recipe` and `ensure_valid_requirements` print, one
constructor per distinct `print` site (build.py lines 141, 146, 151-157, 166,
169, 171, 184, 186). -/
inductive Issue where
  | missingKey (item : String) (idx : Nat) (key : String)
  | unknownKey (item : String) (idx : Nat) (key : String)
  | keyOrder (item : String) (idx : Nat) (key : String)
  | invalidRawResource (item : String)
  | missingRawResource (item : String)
  | multipleRawResource (item : String)
  | unknownRequirement (resource target : String)
  | positiveRequirement (resource target : String)
deriving DecidableEq, Repr

/-- build.py line 129: `required_keys = ["output", "recipe_type", "requirements"]`. -/
def requiredKeys : List String := ["output", "recipe_type", "requirements"]

/-- build.py lines 130-132: `valid_keys = required_keys + ["extra_data"]`. -/
def validKeys : List String := requiredKeys ++ ["extra_data"]

/-- Embeds the per-recipe structural checks of `lint_recipe` (build.py lines
136-157) on the recipe at index `i`: report required keys that are absent,
keys that are not valid, and the three fixed-order checks. The order checks
subscript `recipe_keys[0]`, `recipe_keys[1]`, `recipe_keys[2]`
unconditionally, so a recipe with fewer than three keys raises `IndexError`. -/
def lintKeys (itemName : String) (i : Nat) (recipe : Recipe) : Except String (List Issue) :=
  let keys := recipe.map Prod.fst
  let missing := requiredKeys.filterMap
    (fun k => if k ∈ keys then none else some (Issue.missingKey itemName i k))
  let unknown := keys.filterMap
    (fun k => if k ∈ validKeys then none else some (Issue.unknownKey itemName i k))
  match keys with
  | k0 :: k1 :: k2 :: _ =>
    let order :=
      (if k0 = "output" then [] else [Issue.keyOrder itemName i "output"]) ++
      (if k1 = "recipe_type" then [] else [Issue.keyOrder itemName i "recipe_type"]) ++
      (if k2 = "requirements" then [] else [Issue.keyOrder itemName i "requirements"])
    Except.ok (missing ++ unknown ++ order)
  | _ => Except.error "IndexError: list index out of range"

/-- The `for i, recipe in enumerate(recipes)` loop of `lint_recipe`
(build.py line 134), starting at index `i`. -/
def lintKeysAll (itemName : String) : Nat → List Recipe → Except String (List Issue)
  | _, [] => Except.ok []
  | i, r :: rest =>
    match lintKeys itemName i r with
    | Except.error e => Except.error e
    | Except.ok is1 =>
      match lintKeysAll itemName (i + 1) rest with
      | Except.error e => Except.error e
      | Except.ok is2 => Except.ok (is1 ++ is2)

/-- The exact record `lint_recipe` compares against (build.py line 163):
`OrderedDict([('output', 1), ('recipe_type', 'Raw Resource'),
('requirements', OrderedDict([(item_name, 0)]))])`. `OrderedDict` equality
is order-sensitive, matching list equality here. -/
def canonicalRawResource (itemName : String) : Recipe :=
  [("output", Value.num 1), ("recipe_type", Value.str "Raw Resource"),
   ("requirements", Value.reqs [(itemName, 0)])]

/-- Embeds the raw-resource loop of `lint_recipe` (build.py lines 159-166):
walk the recipes, looking up `recipe['recipe_type']` (a `KeyError` if
absent), count the recipes equal to the canonical raw resource, and report
one issue per raw-typed recipe of any other shape. -/
def countRawResources (itemName : String) : List Recipe → Except String (List Issue × Nat)
  | [] => Except.ok ([], 0)
  | r :: rest =>
    match r.lookup "recipe_type" with
    | none => Except.error "KeyError: recipe_type"
    | some v =>
      if v = Value.str "Raw Resource" then
        if r = canonicalRawResource itemName then
          match countRawResources itemName rest with
          | Except.error e => Except.error e
          | Except.ok (is, c) => Except.ok (is, c + 1)
        else
          match countRawResources itemName rest with
          | Except.error e => Except.error e
          | Except.ok (is, c) => Except.ok (Issue.invalidRawResource itemName :: is, c)
      else countRawResources itemName rest

/-- Embeds `lint_recipe` (build.py lines 127-171): the structural key checks
for every recipe, then the raw-resource census with its two closing
cardinality checks (lines 168-171). -/
def lintRecipe (calculatorName itemName : String) (recipes : List Recipe) :
    Except String (List Issue) :=
  match lintKeysAll itemName 0 recipes with
  | Except.error e => Except.error e
  | Except.ok structural =>
    match countRawResources itemName recipes with
    | Except.error e => Except.error e
    | Except.ok (rawIssues, rawCount) =>
      Except.ok (structural ++ rawIssues ++
        (if rawCount = 0 then [Issue.missingRawResource itemName]
         else if rawCount > 1 then [Issue.multipleRawResource itemName]
         else []))

/-- Embeds `recipe["requirements"]` as used by `ensure_valid_requirements`
(build.py line 182): a `KeyError` if the key is absent, a `TypeError` if its
value is not a mapping. -/
def getRequirements (recipe : Recipe) : Except String (List (String × Int)) :=
  match recipe.lookup "requirements" with
  | some (Value.reqs entries) => Except.ok entries
  | some _ => Except.error "TypeError: value is not a mapping"
  | none => Except.error "KeyError: requirements"

/-- Embeds the innermost loop of `ensure_valid_requirements` (build.py lines
182-186): for each requirement entry, an unknown target is reported first;
otherwise a strictly positive quantity is reported. -/
def requirementIssues (names : List String) (resource : String) :
    List (String × Int) → List Issue
  | [] => []
  | (target, q) :: rest =>
    if target ∈ names then
      if q > 0 then Issue.positiveRequirement resource target :: requirementIssues names resource rest
      else requirementIssues names resource rest
    else Issue.unknownRequirement resource target :: requirementIssues names resource rest

/-- The `for recipe in resources[resource]` loop of
`ensure_valid_requirements` (build.py line 181). -/
def recipesRequirementIssues (names : List String) (resource : String) :
    List Recipe → Except String (List Issue)
  | [] => Except.ok []
  | r :: rest =>
    match getRequirements r with
    | Except.error e => Except.error e
    | Except.ok entries =>
      match recipesRequirementIssues names resource rest with
      | Except.error e => Except.error e
      | Except.ok is2 => Except.ok (requirementIssues names resource entries ++ is2)

/-- The outer `for resource in resources` loop of
`ensure_valid_requirements` (build.py line 180). -/
def evrLoop (names : List String) : List (String × List Recipe) → Except String (List Issue)
  | [] => Except.ok []
  | (resource, recipes) :: rest =>
    match recipesRequirementIssues names resource recipes with
    | Except.error e => Except.error e
    | Except.ok is1 =>
      match evrLoop names rest with
      | Except.error e => Except.error e
      | Except.ok is2 => Except.ok (is1 ++ is2)

/-- Embeds `ensure_valid_requirements` (build.py lines 179-186). The
resource mapping is the insertion-ordered list of (item name, recipes)
pairs; `requirement not in resources` tests membership among the item
names. -/
def ensureValidRequirements (resources : List (String × List Recipe)) :
    Except String (List Issue) :=
  evrLoop (resources.map Prod.fst) resources

/-- A filesystem tree as the staleness checker observes it: files carry the
timestamp `os.path.getctime` reports, directories carry their entries (in
`os.listdir` order); entry names are irrelevant to the traversal. -/
inductive FTree where
  | file (ctime : Int)
  | dir (entries : List FTree)

/-- Python's `min(time_list)`: a `ValueError` on an empty list. -/
def minTimes : List Int → Except String Int
  | [] => Except.error "ValueError: min() arg is an empty sequence"
  | t :: rest => Except.ok (rest.foldl min t)

/-- Python's `max(time_list)`: a `ValueError` on an empty list. -/
def maxTimes : List Int → Except String Int
  | [] => Except.error "ValueError: max() arg is an empty sequence"
  | t :: rest => Except.ok (rest.foldl max t)

mutual

/-- Embeds `get_oldest_modified_time` (build.py lines 195-203): collect the
timestamp of every direct entry (recursing into subdirectories) and take the
minimum. -/
def getOldestModifiedTime : FTree → Except String Int
  | FTree.file t => Except.ok t
  | FTree.dir entries =>
    match oldestTimesList entries with
    | Except.error e => Except.error e
    | Except.ok times => minTimes times

/-- The `for file in os.listdir(path)` loop of `get_oldest_modified_time`
(build.py lines 197-202), building `time_list` in order. -/
def oldestTimesList : List FTree → Except String (List Int)
  | [] => Except.ok []
  | t :: rest =>
    match getOldestModifiedTime t with
    | Except.error e => Except.error e
    | Except.ok x =>
      match oldestTimesList rest with
      | Except.error e => Except.error e
      | Except.ok xs => Except.ok (x :: xs)

end

mutual

/-- Embeds `get_newest_modified_time` (build.py lines 212-220): collect the
timestamp of every direct entry (recursing into subdirectories) and take the
maximum. -/
def getNewestModifiedTime : FTree → Except String Int
  | FTree.file t => Except.ok t
  | FTree.dir entries =>
    match newestTimesList entries with
    | Except.error e => Except.error e
    | Except.ok times => maxTimes times

/-- The `for file in os.listdir(path)` loop of `get_newest_modified_time`
(build.py lines 214-219), building `time_list` in order. -/
def newestTimesList : List FTree → Except String (List Int)
  | [] => Except.ok []
  | t :: rest =>
    match getNewestModifiedTime t with
    | Except.error e => Except.error e
    | Except.ok x =>
      match newestTimesList rest with
      | Except.error e => Except.error e
      | Except.ok xs => Except.ok (x :: xs)

end

/-- Embeds the staleness decision of `create_calculator_page` (build.py
lines 230-244): a missing output folder means stale; otherwise the
calculator is skipped (not stale) exactly when the oldest output timestamp
is strictly newer than every input's newest timestamp (`oldest_output >
max(newest_resource, newest_corelib, newest_build_script)`), where the build
script contributes the single timestamp of `build.py`. -/
def isStale (outputTree : Option FTree) (resourceTree coreTree : FTree)
    (buildScriptTime : Int) : Except String Bool :=
  match outputTree with
  | none => Except.ok true
  | some out =>
    match getOldestModifiedTime out with
    | Except.error e => Except.error e
    | Except.ok oldestOutput =>
      match getNewestModifiedTime resourceTree with
      | Except.error e => Except.error e
      | Except.ok newestResource =>
        match getNewestModifiedTime coreTree with
        | Except.error e => Except.error e
        | Except.ok newestCorelib =>
          if oldestOutput > max newestResource (max newestCorelib buildScriptTime) then
            Except.ok false
          else
            Except.ok true

mutual

/-- Whether a tree contains an empty directory anywhere (including itself):
the condition that makes the timestamp traversals hit `min([])`/`max([])`. -/
def hasEmptyDir : FTree → Bool
  | FTree.file _ => false
  | FTree.dir entries => entries.isEmpty || hasEmptyDirList entries

/-- `hasEmptyDir` for each entry of a directory. -/
def hasEmptyDirList : List FTree → Bool
  | [] => false
  | t :: rest => hasEmptyDir t || hasEmptyDirList rest

end


/-- The requirement entries of a recipe when it is well-shaped, `[]`
otherwise; used to state theorems about runs in which `getRequirements`
succeeded on every recipe. -/
def reqEntries (recipe : Recipe) : List (String × Int) :=
  match recipe.lookup "requirements" with
  | some (Value.reqs entries) => entries
  | _ => []

/-- Spec-side description of the per-entry behavior of the requirement
check (spec §4.2): an unknown target yields an `UnknownRequirement` issue;
otherwise a strictly positive quantity yields a `PositiveRequirement`
issue; otherwise nothing. Stated from the spec's words, to be compared with
the embedded `ensureValidRequirements`. -/
def specPerEntryIssue (knownNames : List String) (resource target : String)
    (quantity : Int) : List Issue :=
  if target ∉ knownNames then [Issue.unknownRequirement resource target]
  else if 0 < quantity then [Issue.positiveRequirement resource target]
  else []

/-- Unfolding characterization of the lexicographic order on a cons pair. -/
theorem charListLe_cons {a b : Char} {as bs : List Char} :
    charListLe (a :: as) (b :: bs) = true ↔ a < b ∨ (a = b ∧ charListLe as bs = true) := by
  show (if a < b then true else if b < a then false else charListLe as bs) = true ↔ _
  split_ifs with h1 h2
  · simp [h1]
  · simp only [Bool.false_eq_true, false_iff]
    rintro (h | ⟨rfl, -⟩)
    · exact h1 h
    · exact absurd h2 (lt_irrefl a)
  · have hab : a = b := le_antisymm (not_lt.mp h2) (not_lt.mp h1)
    simp [hab, lt_irrefl]

/-- Totality of the lexicographic order. -/
theorem charListLe_total : ∀ as bs : List Char, charListLe as bs = true ∨ charListLe bs as = true
  | [], _ => Or.inl rfl
  | _ :: _, [] => Or.inr rfl
  | a :: as, b :: bs => by
    rcases lt_trichotomy a b with h | h | h
    · exact Or.inl (charListLe_cons.mpr (Or.inl h))
    · rcases charListLe_total as bs with ih | ih
      · exact Or.inl (charListLe_cons.mpr (Or.inr ⟨h, ih⟩))
      · exact Or.inr (charListLe_cons.mpr (Or.inr ⟨h.symm, ih⟩))
    · exact Or.inr (charListLe_cons.mpr (Or.inl h))

/-- Transitivity of the lexicographic order. -/
theorem charListLe_trans : ∀ as bs cs : List Char,
    charListLe as bs = true → charListLe bs cs = true → charListLe as cs = true
  | [], _, _, _, _ => rfl
  | _ :: _, [], _, h1, _ => by exact absurd h1 (by simp [charListLe])
  | _ :: _, _ :: _, [], _, h2 => by exact absurd h2 (by simp [charListLe])
  | a :: as, b :: bs, c :: cs, h1, h2 => by
    rcases charListLe_cons.mp h1 with hab | ⟨hab, ht1⟩ <;>
      rcases charListLe_cons.mp h2 with hbc | ⟨hbc, ht2⟩
    · exact charListLe_cons.mpr (Or.inl (lt_trans hab hbc))
    · exact charListLe_cons.mpr (Or.inl (hbc ▸ hab))
    · exact charListLe_cons.mpr (Or.inl (hab ▸ hbc))
    · exact charListLe_cons.mpr (Or.inr ⟨hab.trans hbc, charListLe_trans as bs cs ht1 ht2⟩)

/-- Antisymmetry of the lexicographic order. -/
theorem charListLe_antisymm : ∀ as bs : List Char,
    charListLe as bs = true → charListLe bs as = true → as = bs
  | [], [], _, _ => rfl
  | [], _ :: _, _, h2 => by exact absurd h2 (by simp [charListLe])
  | _ :: _, [], h1, _ => by exact absurd h1 (by simp [charListLe])
  | a :: as, b :: bs, h1, h2 => by
    rcases charListLe_cons.mp h1 with hab | ⟨hab, ht1⟩
    · rcases charListLe_cons.mp h2 with hba | ⟨hba, -⟩
      · exact absurd hba (lt_asymm hab)
      · exact absurd hab (by rw [hba]; exact lt_irrefl a)
    · rcases charListLe_cons.mp h2 with hba | ⟨-, ht2⟩
      · exact absurd hba (by rw [hab]; exact lt_irrefl b)
      · rw [hab, charListLe_antisymm as bs ht1 ht2]

theorem strLe_total (a b : String) : strLe a b = true ∨ strLe b a = true :=
  charListLe_total a.data b.data

theorem strLe_trans {a b c : String} (h1 : strLe a b = true) (h2 : strLe b c = true) :
    strLe a c = true :=
  charListLe_trans a.data b.data c.data h1 h2

theorem strLe_antisymm {a b : String} (h1 : strLe a b = true) (h2 : strLe b a = true) :
    a = b := by
  cases a with
  | mk as =>
    cases b with
    | mk bs => exact congrArg String.mk (charListLe_antisymm as bs h1 h2)

/-- The linear search `ceilSqrtAux` returns the least `c` with `m ≤ c * c`,
provided the fuel reaches some square bound of `m`. -/
theorem ceilSqrtAux_spec (m : Nat) : ∀ (fuel c : Nat),
    (∀ x, x < c → x * x < m) → (∃ r, r ≤ c + fuel ∧ m ≤ r * r) →
    m ≤ ceilSqrtAux m fuel c * ceilSqrtAux m fuel c ∧
      ∀ x, x < ceilSqrtAux m fuel c → x * x < m
  | 0, c, pre, ⟨r, hr, hm⟩ => by
    refine ⟨?_, pre⟩
    have hrc : r ≤ c := by omega
    exact le_trans hm (Nat.mul_le_mul hrc hrc)
  | fuel + 1, c, pre, hex => by
    have hrw : ceilSqrtAux m (fuel + 1) c =
        if m ≤ c * c then c else ceilSqrtAux m fuel (c + 1) := rfl
    rw [hrw]
    split_ifs with h
    · exact ⟨h, pre⟩
    · apply ceilSqrtAux_spec m fuel (c + 1)
      · intro x hx
        rcases Nat.lt_succ_iff_lt_or_eq.mp hx with h' | rfl
        · exact pre x h'
        · exact Nat.lt_of_not_le h
      · obtain ⟨r, hr, hm⟩ := hex
        exact ⟨r, by omega, hm⟩

/-- `ceilSqrt m` is the least natural whose square is at least `m`. -/
theorem ceilSqrt_spec (m : Nat) :
    m ≤ ceilSqrt m * ceilSqrt m ∧ ∀ x, x < ceilSqrt m → x * x < m := by
  apply ceilSqrtAux_spec m m 0
  · intro x hx
    exact absurd hx (Nat.not_lt_zero x)
  · refine ⟨m, by omega, ?_⟩
    cases m with
    | zero => exact Nat.le_refl 0
    | succ k => exact Nat.le_mul_of_pos_left _ (Nat.succ_pos k)

/-- Ceiling division bound: `⌈a / w⌉ ≤ k` exactly when `a ≤ k * w`. -/
theorem ceilDivNat_le_iff {a w k : Nat} (hw : 0 < w) :
    ceilDivNat a w ≤ k ↔ a ≤ k * w := by
  show (a + w - 1) / w ≤ k ↔ a ≤ k * w
  rw [Nat.div_le_iff_le_mul_add_pred hw, Nat.mul_comm w k]
  generalize k * w = t
  omega

/-- Ceiling division covers: `a ≤ ⌈a / w⌉ * w`. -/
theorem le_ceilDivNat_mul {a w : Nat} (hw : 0 < w) : a ≤ ceilDivNat a w * w :=
  (ceilDivNat_le_iff hw).mp (Nat.le_refl _)

/-- `columns w h n` is exactly `⌈√(h*n/w)⌉`: the least `c` with
`h * n ≤ c * c * w`. -/
theorem columns_spec {w h n : Nat} (hw : 0 < w) :
    h * n ≤ columns w h n * columns w h n * w ∧
      ∀ c, c < columns w h n → c * c * w < h * n := by
  obtain ⟨h1, h2⟩ := ceilSqrt_spec (ceilDivNat (h * n) w)
  constructor
  · calc h * n ≤ ceilDivNat (h * n) w * w := le_ceilDivNat_mul hw
    _ ≤ columns w h n * columns w h n * w := Nat.mul_le_mul_right w h1
  · intro c hc
    have hlt : c * c < ceilDivNat (h * n) w := h2 c hc
    have : ¬ (ceilDivNat (h * n) w ≤ c * c) := Nat.not_le_of_lt hlt
    rw [ceilDivNat_le_iff hw] at this
    exact Nat.lt_of_not_le this

/-- The packer never computes zero columns for a nonempty image set. -/
theorem columns_pos {w h n : Nat} (hw : 0 < w) (hhn : 0 < h * n) :
    0 < columns w h n := by
  rcases Nat.eq_zero_or_pos (columns w h n) with h0 | hp
  · have := (columns_spec (h := h) (n := n) hw).1
    rw [h0] at this
    omega
  · exact hp

theorem placeImages_length (c sh sw : Nat) :
    ∀ (i : Nat) (l : List (String × ImgFile)), (placeImages c sh sw i l).length = l.length
  | _, [] => rfl
  | i, (_, _) :: rest => congrArg Nat.succ (placeImages_length c sh sw (i + 1) rest)

theorem placeImages_map_fst (c sh sw : Nat) :
    ∀ (i : Nat) (l : List (String × ImgFile)),
      (placeImages c sh sw i l).map Prod.fst = l.map Prod.fst
  | _, [] => rfl
  | i, (nm, f) :: rest => by
    show nm :: (placeImages c sh sw (i + 1) rest).map Prod.fst = nm :: rest.map Prod.fst
    rw [placeImages_map_fst c sh sw (i + 1) rest]

/-- Every entry the placement loop emits carries the coordinate of its
enumeration index. -/
theorem mem_placeImages {c sh sw : Nat} :
    ∀ {i : Nat} {l : List (String × ImgFile)} {p : String × Nat × Nat},
      p ∈ placeImages c sh sw i l →
      ∃ k, i ≤ k ∧ k < i + l.length ∧ p.2 = ((k % c) * sh, (k / c) * sw)
  | i, [], p, hp => absurd hp (List.not_mem_nil p)
  | i, (nm, f) :: rest, p, hp => by
    rcases List.mem_cons.mp hp with rfl | hmem
    · exact ⟨i, Nat.le_refl i, by simp [placeImages_length], rfl⟩
    · obtain ⟨k, hk1, hk2, hk3⟩ := mem_placeImages hmem
      exact ⟨k, by omega, by simp only [List.length_cons]; omega, hk3⟩

/-- The placement loop depends only on the (ordered) names. -/
theorem placeImages_congr (c sh sw : Nat) :
    ∀ (i : Nat) (l1 l2 : List (String × ImgFile)),
      l1.map Prod.fst = l2.map Prod.fst →
      placeImages c sh sw i l1 = placeImages c sh sw i l2
  | _, [], [], _ => rfl
  | _, [], (_, _) :: _, h => by simp at h
  | _, (_, _) :: _, [], h => by simp at h
  | i, (nm1, f1) :: r1, (nm2, f2) :: r2, h => by
    simp only [List.map_cons, List.cons.injEq] at h
    show (nm1, (i % c) * sh, (i / c) * sw) :: placeImages c sh sw (i + 1) r1 =
      (nm2, (i % c) * sh, (i / c) * sw) :: placeImages c sh sw (i + 1) r2
    rw [h.1, placeImages_congr c sh sw (i + 1) r1 r2 h.2]

/-- With positive cell dimensions and a positive column count, no two
entries of the placement receive the same pixel coordinate. -/
theorem placeImages_pairwise_ne {c sh sw : Nat} (hc : 0 < c) (hsh : 0 < sh) (hsw : 0 < sw) :
    ∀ (i : Nat) (l : List (String × ImgFile)),
      (placeImages c sh sw i l).Pairwise (fun p q => p.2 ≠ q.2)
  | _, [] => List.Pairwise.nil
  | i, (nm, f) :: rest => by
    refine List.Pairwise.cons ?_ (placeImages_pairwise_ne hc hsh hsw (i + 1) rest)
    intro q hq
    obtain ⟨k, hk1, _, hk3⟩ := mem_placeImages hq
    show ((i % c) * sh, (i / c) * sw) ≠ q.2
    rw [hk3]
    intro heq
    have h1 : (i % c) * sh = (k % c) * sh := congrArg Prod.fst heq
    have h2 : (i / c) * sw = (k / c) * sw := congrArg Prod.snd heq
    have hm : i % c = k % c := Nat.eq_of_mul_eq_mul_right hsh h1
    have hd : i / c = k / c := Nat.eq_of_mul_eq_mul_right hsw h2
    have hi : i = c * (i / c) + i % c := (Nat.div_add_mod i c).symm
    have hk : k = c * (k / c) + k % c := (Nat.div_add_mod k c).symm
    rw [hm, hd] at hi
    omega

/-- Indexed form of `mem_placeImages`: the entry at list position `j` of a
placement started at index `i` carries the coordinate of index `i + j`. -/
theorem placeImages_getElemOpt {c sh sw : Nat} :
    ∀ (i : Nat) (l : List (String × ImgFile)) (j : Nat),
      (placeImages c sh sw i l).get? j =
        (l.get? j).map (fun p => (p.1, ((i + j) % c) * sh, ((i + j) / c) * sw))
  | _, [], _ => by simp [placeImages]
  | i, (nm, f) :: rest, 0 => by simp [placeImages]
  | i, (nm, f) :: rest, j + 1 => by
    show (placeImages c sh sw (i + 1) rest).get? j = _
    rw [placeImages_getElemOpt (i + 1) rest j]
    have harith : i + 1 + j = i + (j + 1) := by omega
    rw [harith]
    rfl

/-- A successful pack determines the coordinate list: it is the placement of
the stem-sorted files with the first file's dimensions. -/
theorem createPackedImage_ok_elim {files : List ImgFile} {w h : Nat}
    {coords : List (String × Nat × Nat)}
    (hok : createPackedImage files = Except.ok (w, h, coords)) :
    coords = placeImages (columns w h files.length) h w 0
      (List.insertionSort packLe (files.map (fun f => (splitextStem f.name, f)))) := by
  cases files with
  | nil => exact absurd hok (by simp [createPackedImage])
  | cons f0 rest =>
    simp only [createPackedImage, Except.ok.injEq, Prod.mk.injEq] at hok
    obtain ⟨hw0, hh0, hc⟩ := hok
    rw [← hw0, ← hh0]
    exact hc.symm

/-- The key list of a pack's coordinate map is a permutation of the files'
extension-stripped stems. -/
theorem sortedKeys_perm (files : List ImgFile) :
    ((List.insertionSort packLe (files.map (fun f => (splitextStem f.name, f)))).map
        Prod.fst).Perm (files.map (fun f => splitextStem f.name)) := by
  have h1 := (List.perm_insertionSort packLe
    (files.map (fun f => (splitextStem f.name, f)))).map Prod.fst
  rw [List.map_map] at h1
  exact h1

/-- The sorted pack order projects to a sorted key list. -/
theorem sortedKeys_sorted (files : List ImgFile) :
    ((List.insertionSort packLe (files.map (fun f => (splitextStem f.name, f)))).map
        Prod.fst).Pairwise (fun a b => strLe a b = true) := by
  haveI : IsTotal (String × ImgFile) packLe := ⟨fun a b => strLe_total a.1 b.1⟩
  haveI : IsTrans (String × ImgFile) packLe := ⟨fun a b c h1 h2 => strLe_trans h1 h2⟩
  exact (List.sorted_insertionSort packLe _).map Prod.fst (fun a b hab => hab)

/-- Two sorted string lists that are permutations of each other coincide. -/
theorem sorted_strings_unique {s1 s2 : List String} (hp : s1.Perm s2)
    (h1 : s1.Pairwise (fun a b => strLe a b = true))
    (h2 : s2.Pairwise (fun a b => strLe a b = true)) : s1 = s2 := by
  haveI : IsAntisymm String (fun a b => strLe a b = true) :=
    ⟨fun a b ha hb => strLe_antisymm ha hb⟩
  exact List.eq_of_perm_of_sorted hp h1 h2

/-- C10: `create_packed_image` is partial on the empty input: with zero image
files the reference dimensions stay `None` and the column arithmetic raises
`TypeError` instead of returning a sheet with an empty coordinate map, so the
packer requires at least one input image. -/
theorem packer_empty_input_raises :
    createPackedImage [] = Except.error "TypeError: unsupported operand type for NoneType" :=
  rfl

/-- C2 (failing input): the validator is not total. On an item whose single
recipe is the empty record, `lint_recipe` raises `IndexError` at
`recipe_keys[0]` (build.py line 149) instead of returning the full issue
list; on a three-key recipe lacking `recipe_type` it raises `KeyError` at
`recipe['recipe_type']` (build.py line 162). -/
theorem validator_raises_on_malformed_recipe :
    lintRecipe "calc" "wood" [[]] = Except.error "IndexError: list index out of range"
    ∧ lintRecipe "calc" "wood"
        [[("output", Value.num 1), ("requirements", Value.reqs []), ("extra_data", Value.num 0)]] =
      Except.error "KeyError: recipe_type" := by
  exact ⟨rfl, rfl⟩

/-- C4: the packer computes `columns = ceil(sqrt(h*n/w))` (characterized as
the least `c` with `h*n ≤ c*c*w`), sheet size `w*columns` by
`h*ceil(n/columns)`, and places the sorted index `i` at
`x = (i mod columns) * h`, `y = (i div columns) * w`; the 16×16 four-image
example is evaluated in the witness. -/
theorem packer_layout_formula (files : List ImgFile) (w h : Nat)
    (coords : List (String × Nat × Nat))
    (hw : 0 < w)
    (hok : createPackedImage files = Except.ok (w, h, coords)) :
    (h * files.length ≤ columns w h files.length * columns w h files.length * w
      ∧ ∀ c, c < columns w h files.length → c * c * w < h * files.length)
    ∧ sheetWidth w h files.length = w * columns w h files.length
    ∧ sheetHeight w h files.length = h * ceilDivNat files.length (columns w h files.length)
    ∧ coords.length = files.length
    ∧ ∀ i p, coords.get? i = some p →
        p.2 = ((i % columns w h files.length) * h, (i / columns w h files.length) * w) := by
  have hcoords := createPackedImage_ok_elim hok
  refine ⟨columns_spec hw, rfl, rfl, ?_, ?_⟩
  · rw [hcoords, placeImages_length, (List.perm_insertionSort packLe _).length_eq,
      List.length_map]
  · intro i p hp
    rw [hcoords, placeImages_getElemOpt] at hp
    rcases hq : (List.insertionSort packLe
        (files.map fun f => (splitextStem f.name, f))).get? i with _ | q
    · rw [hq] at hp
      simp at hp
    · rw [hq] at hp
      simp only [Option.map_some', Option.some.injEq] at hp
      rw [← hp]
      simp

theorem packer_layout_formula_witness :
    createPackedImage [⟨"a.png", 16, 16⟩, ⟨"b.png", 16, 16⟩, ⟨"c.png", 16, 16⟩, ⟨"d.png", 16, 16⟩]
      = Except.ok (16, 16, [("a", 0, 0), ("b", 16, 0), ("c", 0, 16), ("d", 16, 16)])
    ∧ 0 < 16
    ∧ ((16 * 4 ≤ columns 16 16 4 * columns 16 16 4 * 16
        ∧ ∀ c, c < columns 16 16 4 → c * c * 16 < 16 * 4)
      ∧ sheetWidth 16 16 4 = 16 * columns 16 16 4
      ∧ sheetHeight 16 16 4 = 16 * ceilDivNat 4 (columns 16 16 4)
      ∧ ([("a", 0, 0), ("b", 16, 0), ("c", 0, 16), ("d", 16, 16)] :
          List (String × Nat × Nat)).length = 4
      ∧ ∀ i p, ([("a", 0, 0), ("b", 16, 0), ("c", 0, 16), ("d", 16, 16)] :
            List (String × Nat × Nat)).get? i = some p →
          p.2 = ((i % columns 16 16 4) * 16, (i / columns 16 16 4) * 16)) :=
  ⟨by decide, by decide,
    packer_layout_formula
      [⟨"a.png", 16, 16⟩, ⟨"b.png", 16, 16⟩, ⟨"c.png", 16, 16⟩, ⟨"d.png", 16, 16⟩] 16 16
      [("a", 0, 0), ("b", 16, 0), ("c", 0, 16), ("d", 16, 16)] (by decide) (by decide)⟩

/-- C1 as stated is false for non-square images: packing two 1×4 images
gives a 3-pixel-wide sheet (`sheetWidth 1 4 2 = 3`) yet places the entry
`b` at `x = 4`, outside the sheet, because the x-step uses the height. -/
theorem packer_bounds_counterexample :
    createPackedImage [⟨"a.png", 1, 4⟩, ⟨"b.png", 1, 4⟩] =
      Except.ok (1, 4, [("a", 0, 0), ("b", 4, 0)])
    ∧ sheetWidth 1 4 2 = 3
    ∧ decide (4 < sheetWidth 1 4 2) = false := by decide

/-- C1 (amended to square images, `w = h = s`): for `n` same-sized square
input images with distinct stems, the coordinate map has exactly `n`
entries, its keys are exactly the input names (with no duplicates), no two
entries share a coordinate, and every coordinate lies inside the produced
sheet. -/
theorem packer_coordinate_map_square (files : List ImgFile) (s : Nat)
    (coords : List (String × Nat × Nat))
    (hs : 0 < s)
    (hd : ∀ f ∈ files, f.width = s ∧ f.height = s)
    (hnd : (files.map (fun f => splitextStem f.name)).Nodup)
    (hok : createPackedImage files = Except.ok (s, s, coords)) :
    coords.length = files.length
    ∧ (coords.map Prod.fst).Perm (files.map (fun f => splitextStem f.name))
    ∧ (coords.map Prod.fst).Nodup
    ∧ coords.Pairwise (fun p q => p.2 ≠ q.2)
    ∧ ∀ p ∈ coords,
        p.2.1 < sheetWidth s s files.length ∧ p.2.2 < sheetHeight s s files.length := by
  have hcoords := createPackedImage_ok_elim hok
  have hne : files ≠ [] := by
    intro h0
    rw [h0] at hok
    exact absurd hok (by simp [createPackedImage])
  have hnpos : 0 < files.length := List.length_pos.mpr hne
  have hc : 0 < columns s s files.length := columns_pos hs (Nat.mul_pos hs hnpos)
  have hsortlen : (List.insertionSort packLe
      (files.map (fun f => (splitextStem f.name, f)))).length = files.length := by
    rw [(List.perm_insertionSort packLe _).length_eq, List.length_map]
  have hperm : (coords.map Prod.fst).Perm (files.map (fun f => splitextStem f.name)) := by
    rw [hcoords, placeImages_map_fst]
    exact sortedKeys_perm files
  refine ⟨?_, hperm, ?_, ?_, ?_⟩
  · rw [hcoords, placeImages_length, hsortlen]
  · exact hperm.nodup_iff.mpr hnd
  · rw [hcoords]
    exact placeImages_pairwise_ne hc hs hs 0 _
  · intro p hp
    rw [hcoords] at hp
    obtain ⟨k, -, hklt, hk⟩ := mem_placeImages hp
    rw [hsortlen] at hklt
    rw [hk]
    constructor
    · show k % columns s s files.length * s < sheetWidth s s files.length
      show k % columns s s files.length * s < s * columns s s files.length
      rw [Nat.mul_comm s (columns s s files.length)]
      exact Nat.mul_lt_mul_of_lt_of_le (Nat.mod_lt k hc) (Nat.le_refl s) hs
    · show k / columns s s files.length * s < sheetHeight s s files.length
      show k / columns s s files.length * s <
        s * ceilDivNat files.length (columns s s files.length)
      rw [Nat.mul_comm s (ceilDivNat files.length (columns s s files.length))]
      have hkn : k < files.length := by omega
      have hdiv : k / columns s s files.length <
          ceilDivNat files.length (columns s s files.length) :=
        (Nat.div_lt_iff_lt_mul hc).mpr
          (Nat.lt_of_lt_of_le hkn (le_ceilDivNat_mul hc))
      exact Nat.mul_lt_mul_of_lt_of_le hdiv (Nat.le_refl s) hs

theorem packer_coordinate_map_square_witness :
    0 < 8
    ∧ (∀ f ∈ [(⟨"b.png", 8, 8⟩ : ImgFile), ⟨"a.png", 8, 8⟩], f.width = 8 ∧ f.height = 8)
    ∧ ([(⟨"b.png", 8, 8⟩ : ImgFile), ⟨"a.png", 8, 8⟩].map
        (fun f => splitextStem f.name)).Nodup
    ∧ createPackedImage [⟨"b.png", 8, 8⟩, ⟨"a.png", 8, 8⟩] =
        Except.ok (8, 8, [("a", 0, 0), ("b", 8, 0)])
    ∧ (([("a", 0, 0), ("b", 8, 0)] : List (String × Nat × Nat)).length =
        [(⟨"b.png", 8, 8⟩ : ImgFile), ⟨"a.png", 8, 8⟩].length
      ∧ (([("a", 0, 0), ("b", 8, 0)] : List (String × Nat × Nat)).map Prod.fst).Perm
          ([(⟨"b.png", 8, 8⟩ : ImgFile), ⟨"a.png", 8, 8⟩].map (fun f => splitextStem f.name))
      ∧ (([("a", 0, 0), ("b", 8, 0)] : List (String × Nat × Nat)).map Prod.fst).Nodup
      ∧ ([("a", 0, 0), ("b", 8, 0)] : List (String × Nat × Nat)).Pairwise
          (fun p q => p.2 ≠ q.2)
      ∧ ∀ p ∈ ([("a", 0, 0), ("b", 8, 0)] : List (String × Nat × Nat)),
          p.2.1 < sheetWidth 8 8 2 ∧ p.2.2 < sheetHeight 8 8 2) :=
  ⟨by decide, by decide, by decide, by decide,
    packer_coordinate_map_square [⟨"b.png", 8, 8⟩, ⟨"a.png", 8, 8⟩] 8
      [("a", 0, 0), ("b", 8, 0)] (by decide) (by decide) (by decide) (by decide)⟩

/-- C8: packing is deterministic over the input set. For any two listing
orders of the same set of same-sized images the packer returns identical
results, because the images are sorted by name before placement and each
coordinate depends only on the sorted index, the column count, and the
reference dimensions. -/
theorem packer_deterministic (l1 l2 : List ImgFile) (w h : Nat)
    (hperm : l1.Perm l2)
    (hd : ∀ f ∈ l1, f.width = w ∧ f.height = h) :
    createPackedImage l1 = createPackedImage l2 := by
  cases l1 with
  | nil =>
    rw [hperm.symm.eq_nil]
  | cons f0 r1 =>
    cases l2 with
    | nil => exact absurd hperm.eq_nil (by simp)
    | cons g0 r2 =>
      have hf0 := hd f0 (List.mem_cons_self f0 r1)
      have hg0 := hd g0 (hperm.mem_iff.mpr (List.mem_cons_self g0 r2))
      have hlen : (f0 :: r1).length = (g0 :: r2).length := hperm.length_eq
      have hkeys : (List.insertionSort packLe
            ((f0 :: r1).map (fun f => (splitextStem f.name, f)))).map Prod.fst =
          (List.insertionSort packLe
            ((g0 :: r2).map (fun f => (splitextStem f.name, f)))).map Prod.fst := by
        apply sorted_strings_unique
        · exact (sortedKeys_perm _).trans
            ((hperm.map (fun f => splitextStem f.name)).trans (sortedKeys_perm _).symm)
        · exact sortedKeys_sorted _
        · exact sortedKeys_sorted _
      simp only [createPackedImage]
      rw [hf0.1, hf0.2, hg0.1, hg0.2, hlen,
        placeImages_congr _ _ _ _ _ _ hkeys]

theorem packer_deterministic_witness :
    ([(⟨"b.png", 4, 4⟩ : ImgFile), ⟨"a.png", 4, 4⟩].Perm
      [(⟨"a.png", 4, 4⟩ : ImgFile), ⟨"b.png", 4, 4⟩])
    ∧ (∀ f ∈ [(⟨"b.png", 4, 4⟩ : ImgFile), ⟨"a.png", 4, 4⟩], f.width = 4 ∧ f.height = 4)
    ∧ createPackedImage [⟨"b.png", 4, 4⟩, ⟨"a.png", 4, 4⟩] =
        createPackedImage [⟨"a.png", 4, 4⟩, ⟨"b.png", 4, 4⟩] :=
  ⟨by decide, by decide,
    packer_deterministic [⟨"b.png", 4, 4⟩, ⟨"a.png", 4, 4⟩]
      [⟨"a.png", 4, 4⟩, ⟨"b.png", 4, 4⟩] 4 4 (by decide) (by decide)⟩

/-- C9 as stated is false: the coordinate-map key is the raw
extension-stripped stem, not its lowercased letters-only normalization. For
the icon file `Wood.png` the stored key is `Wood`, the claim predicts
`wood`, and the item named `Wood` (normalized to `wood`) fails to match its
own icon. -/
theorem icon_key_counterexample :
    createPackedImage [⟨"Wood.png", 16, 16⟩] = Except.ok (16, 16, [("Wood", 0, 0)])
    ∧ splitextStem "Wood.png" = "Wood"
    ∧ simpleName "Wood" = "wood"
    ∧ itemHasIcon [("Wood", 0, 0)] "Wood" = false := by decide

/-- C9 (amended): the coordinate-map keys are exactly the files'
extension-stripped stems taken verbatim, and an item matches an icon exactly
when some file's verbatim stem equals the item's name lowercased with
non-letter characters removed. -/
theorem icon_key_is_raw_stem (files : List ImgFile) (w h : Nat)
    (coords : List (String × Nat × Nat)) (item : String)
    (hok : createPackedImage files = Except.ok (w, h, coords)) :
    (coords.map Prod.fst).Perm (files.map (fun f => splitextStem f.name))
    ∧ (itemHasIcon coords item = true ↔
        ∃ f ∈ files, splitextStem f.name = simpleName item) := by
  have hcoords := createPackedImage_ok_elim hok
  have hperm : (coords.map Prod.fst).Perm (files.map (fun f => splitextStem f.name)) := by
    rw [hcoords, placeImages_map_fst]
    exact sortedKeys_perm files
  refine ⟨hperm, ?_⟩
  show (coords.map Prod.fst).contains (simpleName item) = true ↔ _
  rw [List.contains_iff_exists_mem_beq]
  constructor
  · rintro ⟨k, hk, hbeq⟩
    have hk2 : k ∈ files.map (fun f => splitextStem f.name) := hperm.mem_iff.mp hk
    obtain ⟨f, hf, hfk⟩ := List.mem_map.mp hk2
    exact ⟨f, hf, by rw [hfk]; exact (eq_of_beq hbeq).symm⟩
  · rintro ⟨f, hf, hstem⟩
    refine ⟨splitextStem f.name, ?_, by rw [hstem]; exact beq_self_eq_true (simpleName item)⟩
    exact hperm.mem_iff.mpr (List.mem_map.mpr ⟨f, hf, rfl⟩)

theorem icon_key_is_raw_stem_witness :
    createPackedImage [⟨"wood.png", 16, 16⟩] = Except.ok (16, 16, [("wood", 0, 0)])
    ∧ ((([("wood", 0, 0)] : List (String × Nat × Nat)).map Prod.fst).Perm
        ([(⟨"wood.png", 16, 16⟩ : ImgFile)].map (fun f => splitextStem f.name))
      ∧ (itemHasIcon [("wood", 0, 0)] "Wood" = true ↔
          ∃ f ∈ [(⟨"wood.png", 16, 16⟩ : ImgFile)],
            splitextStem f.name = simpleName "Wood")) :=
  ⟨by decide,
    icon_key_is_raw_stem [⟨"wood.png", 16, 16⟩] 16 16 [("wood", 0, 0)] "Wood" (by decide)⟩

/-- Every issue the structural key check emits is a `missingKey`,
`unknownKey` or `keyOrder` record for the inspected item and index. -/
theorem mem_lintKeys_shape {itemName : String} {i : Nat} {r : Recipe} {is : List Issue}
    (h : lintKeys itemName i r = Except.ok is) :
    ∀ x ∈ is, ∃ k, x = Issue.missingKey itemName i k ∨ x = Issue.unknownKey itemName i k ∨
      x = Issue.keyOrder itemName i k := by
  unfold lintKeys at h
  cases hkk : r.map Prod.fst with
  | nil => rw [hkk] at h; exact absurd h (by simp)
  | cons k0 t0 =>
    cases t0 with
    | nil => rw [hkk] at h; exact absurd h (by simp)
    | cons k1 t1 =>
      cases t1 with
      | nil => rw [hkk] at h; exact absurd h (by simp)
      | cons k2 t2 =>
        rw [hkk] at h
        simp only [Except.ok.injEq] at h
        intro x hx
        rw [← h] at hx
        rcases List.mem_append.mp hx with hx1 | hx2
        · rcases List.mem_append.mp hx1 with hm | hu
          · obtain ⟨a, -, ha⟩ := List.mem_filterMap.mp hm
            by_cases hc : a ∈ k0 :: k1 :: k2 :: t2
            · rw [if_pos hc] at ha
              exact absurd ha (by simp)
            · rw [if_neg hc] at ha
              exact ⟨a, Or.inl (by injection ha with ha2; exact ha2.symm)⟩
          · obtain ⟨a, -, ha⟩ := List.mem_filterMap.mp hu
            by_cases hc : a ∈ validKeys
            · rw [if_pos hc] at ha
              exact absurd ha (by simp)
            · rw [if_neg hc] at ha
              exact ⟨a, Or.inr (Or.inl (by injection ha with ha2; exact ha2.symm))⟩
        · have hx3 : x = Issue.keyOrder itemName i "output" ∨
              x = Issue.keyOrder itemName i "recipe_type" ∨
              x = Issue.keyOrder itemName i "requirements" := by
            rcases List.mem_append.mp hx2 with hx3 | hx4
            · rcases List.mem_append.mp hx3 with hx5 | hx6
              · split_ifs at hx5
                · exact absurd hx5 (List.not_mem_nil x)
                · exact Or.inl (List.mem_singleton.mp hx5)
              · split_ifs at hx6
                · exact absurd hx6 (List.not_mem_nil x)
                · exact Or.inr (Or.inl (List.mem_singleton.mp hx6))
            · split_ifs at hx4
              · exact absurd hx4 (List.not_mem_nil x)
              · exact Or.inr (Or.inr (List.mem_singleton.mp hx4))
          rcases hx3 with rfl | rfl | rfl
          · exact ⟨"output", Or.inr (Or.inr rfl)⟩
          · exact ⟨"recipe_type", Or.inr (Or.inr rfl)⟩
          · exact ⟨"requirements", Or.inr (Or.inr rfl)⟩

/-- The structural pass over a whole recipe list emits only `missingKey`,
`unknownKey` and `keyOrder` issues. -/
theorem mem_lintKeysAll_shape {itemName : String} :
    ∀ (i : Nat) (rs : List Recipe) (is : List Issue),
      lintKeysAll itemName i rs = Except.ok is →
      ∀ x ∈ is, ∃ j k, x = Issue.missingKey itemName j k ∨
        x = Issue.unknownKey itemName j k ∨ x = Issue.keyOrder itemName j k
  | _, [], is, h => by
    simp only [lintKeysAll, Except.ok.injEq] at h
    rw [← h]
    intro x hx
    exact absurd hx (List.not_mem_nil x)
  | i, r :: rest, is, h => by
    cases h1 : lintKeys itemName i r with
    | error e => rw [lintKeysAll, h1] at h; exact absurd h (by simp)
    | ok is1 =>
      cases h2 : lintKeysAll itemName (i + 1) rest with
      | error e => rw [lintKeysAll, h1, h2] at h; exact absurd h (by simp)
      | ok is2 =>
        rw [lintKeysAll, h1, h2] at h
        simp only [Except.ok.injEq] at h
        rw [← h]
        intro x hx
        rcases List.mem_append.mp hx with hx1 | hx2
        · obtain ⟨k, hk⟩ := mem_lintKeys_shape h1 x hx1
          exact ⟨i, k, hk⟩
        · exact mem_lintKeysAll_shape (i + 1) rest is2 h2 x hx2

/-- Characterization of the raw-resource loop on success: the census counts
the recipes equal to the canonical raw resource, and the issues are one
`invalidRawResource` per raw-typed recipe of any other shape. -/
theorem countRawResources_spec {itemName : String} :
    ∀ (rs : List Recipe) (is : List Issue) (c : Nat),
      countRawResources itemName rs = Except.ok (is, c) →
      c = rs.count (canonicalRawResource itemName)
      ∧ is = List.replicate
          (rs.countP (fun r => decide (r.lookup "recipe_type" = some (Value.str "Raw Resource")
            ∧ r ≠ canonicalRawResource itemName)))
          (Issue.invalidRawResource itemName)
  | [], is, c, h => by
    simp only [countRawResources, Except.ok.injEq, Prod.mk.injEq] at h
    simp [← h.1, ← h.2]
  | r :: rest, is, c, h => by
    cases hl : r.lookup "recipe_type" with
    | none => rw [countRawResources, hl] at h; exact absurd h (by simp)
    | some v =>
      simp only [countRawResources, hl] at h
      by_cases hv : v = Value.str "Raw Resource"
      · rw [if_pos hv] at h
        by_cases hcan : r = canonicalRawResource itemName
        · rw [if_pos hcan] at h
          cases hrec : countRawResources itemName rest with
          | error e => rw [hrec] at h; exact absurd h (by simp)
          | ok p =>
            rw [hrec] at h
            simp only [Except.ok.injEq, Prod.mk.injEq] at h
            obtain ⟨hspec1, hspec2⟩ := countRawResources_spec rest p.1 p.2 (by rw [hrec])
            constructor
            · rw [← h.2, hspec1, hcan, List.count_cons_self]
            · rw [← h.1, hspec2, List.countP_cons]
              simp [hcan]
        · rw [if_neg hcan] at h
          cases hrec : countRawResources itemName rest with
          | error e => rw [hrec] at h; exact absurd h (by simp)
          | ok p =>
            rw [hrec] at h
            simp only [Except.ok.injEq, Prod.mk.injEq] at h
            obtain ⟨hspec1, hspec2⟩ := countRawResources_spec rest p.1 p.2 (by rw [hrec])
            constructor
            · rw [← h.2, hspec1, List.count_cons_of_ne (fun hh => hcan hh.symm) _]
            · rw [← h.1, hspec2, List.countP_cons]
              simp [hl, hv, hcan, List.replicate_succ]
      · rw [if_neg hv] at h
        obtain ⟨hspec1, hspec2⟩ := countRawResources_spec rest is c h
        have hncan : r ≠ canonicalRawResource itemName := by
          intro hcan
          rw [hcan] at hl
          have h2 : List.lookup "recipe_type" (canonicalRawResource itemName) =
              some (Value.str "Raw Resource") := rfl
          rw [h2] at hl
          exact hv (Option.some.inj hl).symm
        constructor
        · rw [hspec1, List.count_cons_of_ne (fun hh => hncan hh.symm) _]
        · rw [hspec2, List.countP_cons]
          simp [hl, hv]

/-- C5 as stated is false: two canonical raw-resource recipes produce one
single per-item issue (the "must have only one" message of build.py line
171), not an `InvalidRawResource` issue per offending recipe; no
invalid-raw-resource issue is emitted at all. -/
theorem raw_resource_census_counterexample :
    lintRecipe "calc" "wood" [canonicalRawResource "wood", canonicalRawResource "wood"] =
      Except.ok [Issue.multipleRawResource "wood"]
    ∧ List.count (Issue.invalidRawResource "wood") [Issue.multipleRawResource "wood"] = 0 := by
  decide

/-- C5 (amended): on a successful run, the issue list contains one
`MissingRawResource` issue exactly when no recipe equals the canonical raw
resource, one per-item multiple-raw-resource issue exactly when more than
one recipe equals it, and one `InvalidRawResource` issue per recipe whose
`recipe_type` is `"Raw Resource"` but whose shape differs from the
canonical one. -/
theorem raw_resource_census (calculatorName itemName : String) (recipes : List Recipe)
    (issues : List Issue)
    (hok : lintRecipe calculatorName itemName recipes = Except.ok issues) :
    issues.count (Issue.missingRawResource itemName) =
      (if recipes.count (canonicalRawResource itemName) = 0 then 1 else 0)
    ∧ issues.count (Issue.multipleRawResource itemName) =
      (if 1 < recipes.count (canonicalRawResource itemName) then 1 else 0)
    ∧ issues.count (Issue.invalidRawResource itemName) =
      recipes.countP (fun r => decide (r.lookup "recipe_type" = some (Value.str "Raw Resource")
        ∧ r ≠ canonicalRawResource itemName)) := by
  cases h1 : lintKeysAll itemName 0 recipes with
  | error e => rw [lintRecipe, h1] at hok; exact absurd hok (by simp)
  | ok st =>
    cases h2 : countRawResources itemName recipes with
    | error e => rw [lintRecipe, h1, h2] at hok; exact absurd hok (by simp)
    | ok p =>
      obtain ⟨ri, rc⟩ := p
      rw [lintRecipe, h1, h2] at hok
      simp only [Except.ok.injEq] at hok
      obtain ⟨hc, hinv⟩ := countRawResources_spec recipes ri rc h2
      have hstShape := mem_lintKeysAll_shape 0 recipes st h1
      have hstMiss : st.count (Issue.missingRawResource itemName) = 0 := by
        rw [List.count_eq_zero]
        intro hmem
        obtain ⟨j, k, hk⟩ := hstShape _ hmem
        rcases hk with hk | hk | hk <;> exact absurd hk (by simp)
      have hstMult : st.count (Issue.multipleRawResource itemName) = 0 := by
        rw [List.count_eq_zero]
        intro hmem
        obtain ⟨j, k, hk⟩ := hstShape _ hmem
        rcases hk with hk | hk | hk <;> exact absurd hk (by simp)
      have hstInv : st.count (Issue.invalidRawResource itemName) = 0 := by
        rw [List.count_eq_zero]
        intro hmem
        obtain ⟨j, k, hk⟩ := hstShape _ hmem
        rcases hk with hk | hk | hk <;> exact absurd hk (by simp)
      have hriMiss : ri.count (Issue.missingRawResource itemName) = 0 := by
        rw [hinv, List.count_replicate]
        simp
      have hriMult : ri.count (Issue.multipleRawResource itemName) = 0 := by
        rw [hinv, List.count_replicate]
        simp
      have hriInv : ri.count (Issue.invalidRawResource itemName) =
          recipes.countP (fun r => decide (r.lookup "recipe_type" =
            some (Value.str "Raw Resource") ∧ r ≠ canonicalRawResource itemName)) := by
        rw [hinv, List.count_replicate_self]
      refine ⟨?_, ?_, ?_⟩
      · rw [← hok]
        simp only [List.count_append, hstMiss, hriMiss, ← hc]
        by_cases h0 : rc = 0
        · simp [h0]
        · by_cases hgt : rc > 1
          · simp [h0, hgt]
          · simp [h0, hgt]
      · rw [← hok]
        simp only [List.count_append, hstMult, hriMult, ← hc]
        by_cases h0 : rc = 0
        · simp [h0]
        · by_cases hgt : rc > 1
          · simp [h0, hgt]
          · simp [h0, hgt]
      · rw [← hok]
        simp only [List.count_append, hstInv, hriInv]
        by_cases h0 : rc = 0
        · simp [h0]
        · by_cases hgt : rc > 1
          · simp [h0, hgt]
          · simp [h0, hgt]

theorem raw_resource_census_witness :
    lintRecipe "calc" "wood" [canonicalRawResource "wood"] = Except.ok []
    ∧ (List.count (Issue.missingRawResource "wood") ([] : List Issue) =
        (if List.count (canonicalRawResource "wood") [canonicalRawResource "wood"] = 0
         then 1 else 0)
      ∧ List.count (Issue.multipleRawResource "wood") ([] : List Issue) =
        (if 1 < List.count (canonicalRawResource "wood") [canonicalRawResource "wood"]
         then 1 else 0)
      ∧ List.count (Issue.invalidRawResource "wood") ([] : List Issue) =
        List.countP (fun r => decide (r.lookup "recipe_type" =
          some (Value.str "Raw Resource") ∧ r ≠ canonicalRawResource "wood"))
          [canonicalRawResource "wood"]) :=
  ⟨by decide,
    raw_resource_census "calc" "wood" [canonicalRawResource "wood"] [] (by decide)⟩

/-- The embedded requirement loop agrees entry-by-entry with the spec-side
per-entry description. -/
theorem requirementIssues_flat (names : List String) (resource : String) :
    ∀ entries : List (String × Int),
      requirementIssues names resource entries =
        entries.flatMap (fun e => specPerEntryIssue names resource e.1 e.2)
  | [] => rfl
  | (target, q) :: rest => by
    have ih := requirementIssues_flat names resource rest
    rw [List.flatMap_cons]
    show requirementIssues names resource ((target, q) :: rest) =
      specPerEntryIssue names resource target q ++
        rest.flatMap (fun e => specPerEntryIssue names resource e.1 e.2)
    rw [← ih]
    simp only [requirementIssues, specPerEntryIssue]
    split_ifs <;> simp_all

/-- On success the per-resource loop returns the concatenation of the
per-recipe requirement issues. -/
theorem recipesRequirementIssues_ok {names : List String} {resource : String} :
    ∀ (rs : List Recipe) (is : List Issue),
      recipesRequirementIssues names resource rs = Except.ok is →
      is = rs.flatMap (fun r => requirementIssues names resource (reqEntries r))
  | [], is, h => by
    simp only [recipesRequirementIssues, Except.ok.injEq] at h
    simp [← h]
  | r :: rest, is, h => by
    cases hg : getRequirements r with
    | error e => rw [recipesRequirementIssues, hg] at h; exact absurd h (by simp)
    | ok entries =>
      cases h2 : recipesRequirementIssues names resource rest with
      | error e => rw [recipesRequirementIssues, hg, h2] at h; exact absurd h (by simp)
      | ok is2 =>
        rw [recipesRequirementIssues, hg, h2] at h
        simp only [Except.ok.injEq] at h
        have hre : reqEntries r = entries := by
          unfold reqEntries
          unfold getRequirements at hg
          cases hl : r.lookup "requirements" with
          | none => rw [hl] at hg; exact absurd hg (by simp)
          | some v =>
            rw [hl] at hg
            cases v with
            | num n => exact absurd hg (by simp)
            | str s => exact absurd hg (by simp)
            | reqs es =>
              simp only [Except.ok.injEq] at hg
              exact hg
        rw [← h, List.flatMap_cons, hre, recipesRequirementIssues_ok rest is2 h2]

/-- On success the outer resource loop returns the concatenation over all
resources, recipes and entries. -/
theorem evrLoop_ok {names : List String} :
    ∀ (rs : List (String × List Recipe)) (is : List Issue),
      evrLoop names rs = Except.ok is →
      is = rs.flatMap (fun p => p.2.flatMap
        (fun r => requirementIssues names p.1 (reqEntries r)))
  | [], is, h => by
    simp only [evrLoop, Except.ok.injEq] at h
    simp [← h]
  | (resource, recipes) :: rest, is, h => by
    cases h1 : recipesRequirementIssues names resource recipes with
    | error e => rw [evrLoop, h1] at h; exact absurd h (by simp)
    | ok is1 =>
      cases h2 : evrLoop names rest with
      | error e => rw [evrLoop, h1, h2] at h; exact absurd h (by simp)
      | ok is2 =>
        rw [evrLoop, h1, h2] at h
        simp only [Except.ok.injEq] at h
        rw [← h, List.flatMap_cons,
          recipesRequirementIssues_ok recipes is1 h1, evrLoop_ok rest is2 h2]

/-- C6: on a successful run, `ensure_valid_requirements` emits, for every
requirement entry (target, quantity) over all recipes of all items and
nothing else: an `UnknownRequirement` issue when the target is not a known
item name (regardless of the quantity), else a `PositiveRequirement` issue
exactly when the quantity is strictly positive, and no issue otherwise. -/
theorem requirement_validation (resources : List (String × List Recipe))
    (issues : List Issue)
    (hok : ensureValidRequirements resources = Except.ok issues) :
    issues = resources.flatMap (fun p => p.2.flatMap (fun r =>
      (reqEntries r).flatMap (fun e =>
        specPerEntryIssue (resources.map Prod.fst) p.1 e.1 e.2))) := by
  have h := evrLoop_ok resources issues hok
  rw [h]
  simp only [requirementIssues_flat]

theorem requirement_validation_witness :
    ensureValidRequirements
        [("wood", [[("output", Value.num 1), ("recipe_type", Value.str "Raw Resource"),
          ("requirements", Value.reqs [("wood", 0), ("stone", -3), ("iron", 2), ("ghost", 5)])]]),
         ("stone", []), ("iron", [])] =
      Except.ok [Issue.positiveRequirement "wood" "iron",
        Issue.unknownRequirement "wood" "ghost"]
    ∧ [Issue.positiveRequirement "wood" "iron", Issue.unknownRequirement "wood" "ghost"] =
        ([("wood", [[("output", Value.num 1), ("recipe_type", Value.str "Raw Resource"),
          ("requirements", Value.reqs [("wood", 0), ("stone", -3), ("iron", 2), ("ghost", 5)])]]),
         ("stone", []), ("iron", [])] : List (String × List Recipe)).flatMap
          (fun p => p.2.flatMap (fun r =>
            (reqEntries r).flatMap (fun e =>
              specPerEntryIssue
                (([("wood", [[("output", Value.num 1), ("recipe_type", Value.str "Raw Resource"),
                  ("requirements", Value.reqs [("wood", 0), ("stone", -3), ("iron", 2),
                    ("ghost", 5)])]]),
                 ("stone", []), ("iron", [])] : List (String × List Recipe)).map Prod.fst)
                p.1 e.1 e.2))) :=
  ⟨by decide,
    requirement_validation
      [("wood", [[("output", Value.num 1), ("recipe_type", Value.str "Raw Resource"),
        ("requirements", Value.reqs [("wood", 0), ("stone", -3), ("iron", 2), ("ghost", 5)])]]),
       ("stone", []), ("iron", [])]
      [Issue.positiveRequirement "wood" "iron", Issue.unknownRequirement "wood" "ghost"]
      (by decide)⟩

/-- C3: a missing output tree means stale; otherwise, when all three
traversals succeed, the calculator is stale exactly when the oldest output
timestamp is at most the maximum of the newest timestamps of the resource
tree, the core tree and the build script. -/
theorem staleness_decision (out resourceTree coreTree : FTree)
    (buildScriptTime o nr nc : Int)
    (ho : getOldestModifiedTime out = Except.ok o)
    (hr : getNewestModifiedTime resourceTree = Except.ok nr)
    (hc : getNewestModifiedTime coreTree = Except.ok nc) :
    isStale none resourceTree coreTree buildScriptTime = Except.ok true
    ∧ isStale (some out) resourceTree coreTree buildScriptTime =
        Except.ok (decide (o ≤ max nr (max nc buildScriptTime))) := by
  refine ⟨rfl, ?_⟩
  simp only [isStale, ho, hr, hc]
  by_cases hgt : o > max nr (max nc buildScriptTime)
  · rw [if_pos hgt]
    have hn : ¬ (o ≤ max nr (max nc buildScriptTime)) := not_le.mpr hgt
    simp [hn]
  · rw [if_neg hgt]
    have hle : o ≤ max nr (max nc buildScriptTime) := not_lt.mp hgt
    simp [hle]

theorem staleness_decision_witness :
    getOldestModifiedTime (FTree.dir [FTree.file 5]) = Except.ok 5
    ∧ getNewestModifiedTime (FTree.dir [FTree.file 3]) = Except.ok 3
    ∧ getNewestModifiedTime (FTree.dir [FTree.file 4, FTree.dir [FTree.file 7]]) = Except.ok 7
    ∧ (isStale none (FTree.dir [FTree.file 3])
          (FTree.dir [FTree.file 4, FTree.dir [FTree.file 7]]) 2 = Except.ok true
      ∧ isStale (some (FTree.dir [FTree.file 5])) (FTree.dir [FTree.file 3])
          (FTree.dir [FTree.file 4, FTree.dir [FTree.file 7]]) 2 =
          Except.ok (decide ((5 : Int) ≤ max 3 (max 7 2)))) :=
  ⟨by decide, by decide, by decide,
    staleness_decision (FTree.dir [FTree.file 5]) (FTree.dir [FTree.file 3])
      (FTree.dir [FTree.file 4, FTree.dir [FTree.file 7]]) 2 5 3 7
      (by decide) (by decide) (by decide)⟩

mutual

/-- A tree containing an empty directory makes `get_oldest_modified_time`
raise (`min` of an empty sequence) rather than return a value. -/
theorem oldestErrOfEmpty : ∀ (t : FTree), hasEmptyDir t = true →
    ∃ e, getOldestModifiedTime t = Except.error e
  | FTree.file _, h => by simp [hasEmptyDir] at h
  | FTree.dir entries, h => by
    cases entries with
    | nil => exact ⟨"ValueError: min() arg is an empty sequence", rfl⟩
    | cons t rest =>
      have h2 : hasEmptyDirList (t :: rest) = true := by
        simpa [hasEmptyDir, List.isEmpty] using h
      obtain ⟨e, he⟩ := oldestErrListOfEmpty (t :: rest) h2
      exact ⟨e, by rw [getOldestModifiedTime, he]⟩

/-- List form of `oldestErrOfEmpty` for the entries of a directory. -/
theorem oldestErrListOfEmpty : ∀ (l : List FTree), hasEmptyDirList l = true →
    ∃ e, oldestTimesList l = Except.error e
  | [], h => by simp [hasEmptyDirList] at h
  | t :: rest, h => by
    by_cases h1 : hasEmptyDir t = true
    · obtain ⟨e, he⟩ := oldestErrOfEmpty t h1
      exact ⟨e, by rw [oldestTimesList, he]⟩
    · have h2 : hasEmptyDirList rest = true := by
        rw [hasEmptyDirList, Bool.or_eq_true] at h
        exact h.resolve_left h1
      obtain ⟨e, he⟩ := oldestErrListOfEmpty rest h2
      cases hg : getOldestModifiedTime t with
      | error e2 => exact ⟨e2, by rw [oldestTimesList, hg]⟩
      | ok x => exact ⟨e, by rw [oldestTimesList, hg, he]⟩

end

mutual

/-- A tree containing an empty directory makes `get_newest_modified_time`
raise (`max` of an empty sequence) rather than return a value. -/
theorem newestErrOfEmpty : ∀ (t : FTree), hasEmptyDir t = true →
    ∃ e, getNewestModifiedTime t = Except.error e
  | FTree.file _, h => by simp [hasEmptyDir] at h
  | FTree.dir entries, h => by
    cases entries with
    | nil => exact ⟨"ValueError: max() arg is an empty sequence", rfl⟩
    | cons t rest =>
      have h2 : hasEmptyDirList (t :: rest) = true := by
        simpa [hasEmptyDir, List.isEmpty] using h
      obtain ⟨e, he⟩ := newestErrListOfEmpty (t :: rest) h2
      exact ⟨e, by rw [getNewestModifiedTime, he]⟩

/-- List form of `newestErrOfEmpty` for the entries of a directory. -/
theorem newestErrListOfEmpty : ∀ (l : List FTree), hasEmptyDirList l = true →
    ∃ e, newestTimesList l = Except.error e
  | [], h => by simp [hasEmptyDirList] at h
  | t :: rest, h => by
    by_cases h1 : hasEmptyDir t = true
    · obtain ⟨e, he⟩ := newestErrOfEmpty t h1
      exact ⟨e, by rw [newestTimesList, he]⟩
    · have h2 : hasEmptyDirList rest = true := by
        rw [hasEmptyDirList, Bool.or_eq_true] at h
        exact h.resolve_left h1
      obtain ⟨e, he⟩ := newestErrListOfEmpty rest h2
      cases hg : getNewestModifiedTime t with
      | error e2 => exact ⟨e2, by rw [newestTimesList, hg]⟩
      | ok x => exact ⟨e, by rw [newestTimesList, hg, he]⟩

end

/-- C7: a directory tree containing an empty directory anywhere makes both
timestamp traversals fail with an error rather than return a value, so an
empty input directory can never produce a false "not stale" result. -/
theorem empty_dir_fatal (t : FTree) (h : hasEmptyDir t = true) :
    (∃ e, getOldestModifiedTime t = Except.error e)
    ∧ (∃ e, getNewestModifiedTime t = Except.error e) :=
  ⟨oldestErrOfEmpty t h, newestErrOfEmpty t h⟩

theorem empty_dir_fatal_witness :
    hasEmptyDir (FTree.dir [FTree.file 5, FTree.dir []]) = true
    ∧ ((∃ e, getOldestModifiedTime (FTree.dir [FTree.file 5, FTree.dir []]) =
          Except.error e)
      ∧ (∃ e, getNewestModifiedTime (FTree.dir [FTree.file 5, FTree.dir []]) =
          Except.error e)) :=
  ⟨by decide, empty_dir_fatal (FTree.dir [FTree.file 5, FTree.dir []]) (by decide)⟩
